import Mathlib

/-!
Shallow embedding of the order-matching engine (package `book`, file
`book/book.go`, repository-backed `BookImpl`, together with the order
repository contract of `order/repository.go`).

Modelling conventions:
* Go `float64` prices and amounts are modelled as `Int` (a fixed decimal
  scale; every claim settled here depends only on ordering, addition and
  subtraction of amounts, which this model shares with the reals).
* The `gods` red-black tree keyed by price is modelled as an association
  list `Tree := List (Int × Level)` kept in ascending key order; ascending
  iteration is the list itself, the `End`/`Prev` iteration is `List.reverse`.
* Go maps `map[string]*redblacktree.Tree` are association lists.
* The store (`orderRepo` backed by SQL) is a record of committed rows,
  appended history-event rows, a fresh-id counter and two flags saying
  whether `CreateOrder` / `AddEvent` calls succeed; its lookup failure is a
  `storeErr`, a distinct value from the book's `ErrOrderNotFound`. Persisted
  event rows are distinguished from the in-memory `OrderHistoryEvent` values
  handed to the repository, because both repository inserts leave the
  nullable `order_id` and `metadata` columns NULL (`OrderID` omitted or with
  `Valid` false, `NullRawMessage.Valid` false).
* `slices.SortFunc` (an unstable sort by `CreatedAt`) is modelled as an
  insertion sort by `createdAt`.
-/

namespace OrderBook

inductive OrderType where
  | ASK
  | BID
deriving DecidableEq, Repr

/-- In `matchOrder`: `if o.Type == order.ASK { treeType = order.BID } else { treeType = order.ASK }`. -/
def OrderType.opposite : OrderType → OrderType
  | .ASK => .BID
  | .BID => .ASK

/-- `order.Order` from `order/order.go`. -/
structure Order where
  price : Int
  amount : Int
  pairId : String
  id : Int
  accountId : Int
  createdAt : Int
  side : OrderType
deriving DecidableEq, Repr

/-- `order.OrderList.List`: the FIFO of resting orders at one price level. -/
abbrev Level := List Order

/-- A `redblacktree.Tree` keyed by price: association list in ascending key order. -/
abbrev Tree := List (Int × Level)

/-- `tree.GetNode(price)`, returning the node's order list. -/
def treeFind : Tree → Int → Option Level
  | [], _ => none
  | (k, v) :: rest, p => if p = k then some v else treeFind rest p

/-- Assignment `node.Value.(*order.OrderList).List = ...` on the node with the given key. -/
def treeSet : Tree → Int → Level → Tree
  | [], _, _ => []
  | (k, v) :: rest, p, l => if p = k then (k, l) :: rest else (k, v) :: treeSet rest p l

/-- `tree.Put(price, list)`: insert keeping ascending key order, replacing an equal key. -/
def treePut : Tree → Int → Level → Tree
  | [], p, l => [(p, l)]
  | (k, v) :: rest, p, l =>
    if p < k then (p, l) :: (k, v) :: rest
    else if p = k then (p, l) :: rest
    else (k, v) :: treePut rest p l

/-- `tree.Remove(key)`. -/
def treeRemove : Tree → Int → Tree
  | [], _ => []
  | (k, v) :: rest, p => if p = k then rest else (k, v) :: treeRemove rest p

/-- `map[string]*redblacktree.Tree` as an association list. -/
abbrev TreeMap := List (String × Tree)

def mapFind : TreeMap → String → Option Tree
  | [], _ => none
  | (k, v) :: rest, s => if s = k then some v else mapFind rest s

/-- Go map assignment `m[key] = tree` (replace or append). -/
def mapSet : TreeMap → String → Tree → TreeMap
  | [], s, t => [(s, t)]
  | (k, v) :: rest, s, t => if s = k then (s, t) :: rest else (k, v) :: mapSet rest s t

/-- The in-memory ladders of `BookImpl`: `askTreesMap` and `bidTreesMap`. -/
structure BookState where
  askTreesMap : TreeMap
  bidTreesMap : TreeMap
deriving DecidableEq, Repr

/-- `BookImpl.getTreeFor`. -/
def getTreeFor (b : BookState) (pairId : String) (t : OrderType) : Option Tree :=
  match t with
  | .ASK => mapFind b.askTreesMap pairId
  | .BID => mapFind b.bidTreesMap pairId

/-- Store a (possibly new) tree under the pair: the map mutation of `genTreeFor`
and the in-place node mutations, seen at the map level. -/
def setTreeFor (b : BookState) (pairId : String) (t : OrderType) (tr : Tree) : BookState :=
  match t with
  | .ASK => { b with askTreesMap := mapSet b.askTreesMap pairId tr }
  | .BID => { b with bidTreesMap := mapSet b.bidTreesMap pairId tr }

/-- `book.MatchResult`. -/
structure MatchResult where
  targetOrder : Order
  matchStatus : String
deriving DecidableEq, Repr

/-- The scan loop of `matchOrder` over the order list at the matched price node:
skip same-account orders, partial-fill a larger resting order and stop,
fully fill and delete a smaller-or-equal one and continue, while `amountLeft > 0`. -/
def matchLoop (acct : Int) (amountLeft : Int) : Level → List MatchResult × Int × Level
  | [] => ([], amountLeft, [])
  | r :: rest =>
    if amountLeft ≤ 0 then ([], amountLeft, r :: rest)
    else if r.accountId = acct then
      let res := matchLoop acct amountLeft rest
      (res.1, res.2.1, r :: res.2.2)
    else if amountLeft < r.amount then
      ([⟨{ r with amount := amountLeft }, "partial"⟩], 0,
        { r with amount := r.amount - amountLeft } :: rest)
    else
      let res := matchLoop acct (amountLeft - r.amount) rest
      (⟨r, "full"⟩ :: res.1, res.2.1, res.2.2)

/-- `BookImpl.matchOrder`: look up the opposite-side tree (creating an empty one
when absent), take the node at exactly `o.Price`; when absent return with the
named results at their zero values; otherwise run the scan loop and write the
surviving list back into the node. -/
def matchOrder (b : BookState) (o : Order) : List MatchResult × Int × BookState :=
  let treeType := o.side.opposite
  let tb : Tree × BookState :=
    match getTreeFor b o.pairId treeType with
    | some t => (t, b)
    | none => ([], setTreeFor b o.pairId treeType [])
  match treeFind tb.1 o.price with
  | none => ([], 0, tb.2)
  | some l =>
    let res := matchLoop o.accountId o.amount l
    (res.1, res.2.1, setTreeFor tb.2 o.pairId treeType (treeSet tb.1 o.price res.2.2))

/-- `order.OrderHistoryEvent`: the in-memory event value the engine hands to
the repository. The only metadata key the engine ever writes is
`matching_order_id`, so the JSON bag is modelled as an optional value for that
key (`none` = empty metadata). -/
structure HistoryEvent where
  name : String
  orderId : Int
  matchingOrderId : Option Int
deriving DecidableEq, Repr

/-- A persisted row of `tbl_order_history_events` as the repository actually
writes it: `order_id` and `metadata` are nullable columns, and both inserts in
the repository leave them NULL — `AddEvent` omits `OrderID` from its params
and leaves `NullRawMessage.Valid` false, and `CreateOrder` sets only the
`Int64` of its `sql.NullInt64` with `Valid` still false. -/
structure EventRow where
  event : String
  orderId : Option Int
  metadata : Option Int
deriving DecidableEq, Repr

/-- Errors crossing the book boundary. `orderNotFound` is `book.ErrOrderNotFound`;
`storeErr` stands for any error value produced inside the repository
(SQL/driver/conversion failures), which is never equal to `ErrOrderNotFound`. -/
inductive BookErr where
  | orderNotFound
  | storeErr
deriving DecidableEq, Repr

/-- The order repository (`orderRepo` of `order/repository.go`): committed rows,
appended events, the next `BIGSERIAL` id, the store clock, and flags saying
whether `CreateOrder` transactions and `AddEvent` appends succeed. -/
structure Store where
  nextId : Int
  now : Int
  rows : List Order
  events : List EventRow
  createOk : Bool
  appendOk : Bool
deriving DecidableEq, Repr

/-- `orderRepo.CreateOrder`: in one transaction insert the row (fresh monotonic
id, store-assigned `created_at`) and an `ORDER_CREATED` history event, and
return the committed row; `none` on failure (nothing committed). The event
insert passes `sql.NullInt64{Int64: id}` with `Valid` left false and no
metadata, so the persisted `ORDER_CREATED` row has `order_id` NULL and
`metadata` NULL. -/
def Store.createOrder (st : Store) (pairId : String) (price amount : Int)
    (accountId : Int) (side : OrderType) : Option (Order × Store) :=
  if st.createOk then
    let row : Order := ⟨price, amount, pairId, st.nextId, accountId, st.now, side⟩
    some (row,
      { st with
        nextId := st.nextId + 1
        rows := st.rows ++ [row]
        events := st.events ++ [⟨"ORDER_CREATED", none, none⟩] })
  else
    none

/-- `orderRepo.GetOrderByID`: read the committed row; an absent id surfaces the
repository's own error, not `ErrOrderNotFound`. -/
def Store.getOrderByID (st : Store) (id : Int) : Except BookErr Order :=
  match st.rows.find? (fun r => r.id == id) with
  | some r => .ok r
  | none => .error .storeErr

/-- `orderRepo.AddEvent`: append one history row, reporting failure without
rolling anything back. The insert params set only `Event` and a
`pqtype.NullRawMessage` whose `Valid` flag is left false, and omit `OrderID`
entirely, so the persisted row keeps neither the event's order id nor its
metadata: both columns are written NULL whatever `ev` carries. -/
def Store.addEvent (st : Store) (ev : HistoryEvent) : Option BookErr × Store :=
  if st.appendOk then (none, { st with events := st.events ++ [⟨ev.name, none, none⟩] })
  else (some .storeErr, st)

/-- `slices.SortFunc(orderList, ...)` comparing by `CreatedAt`: modelled as an
insertion step of a sort by `createdAt`. -/
def insertByTime (o : Order) : Level → Level
  | [] => [o]
  | x :: xs => if o.createdAt ≤ x.createdAt then o :: x :: xs else x :: insertByTime o xs

/-- The full sort by `CreatedAt` used in `insertOrder`. -/
def sortByCreatedAt : Level → Level
  | [] => []
  | x :: xs => insertByTime x (sortByCreatedAt xs)

/-- `BookImpl.insertOrder`: create the row in the store (on failure log and
return without touching the ladder), overwrite the local copy's id with the
store-assigned one, then insert into the own-side tree: a fresh node for a new
price, otherwise append to the level and sort it by `CreatedAt`. -/
def insertOrder (st : Store) (b : BookState) (o : Order) : Store × BookState :=
  match st.createOrder o.pairId o.price o.amount o.accountId o.side with
  | none => (st, b)
  | some (created, st1) =>
    let o1 := { o with id := created.id }
    let tb : Tree × BookState :=
      match getTreeFor b o.pairId o.side with
      | some t => (t, b)
      | none => ([], setTreeFor b o.pairId o.side [])
    match treeFind tb.1 o.price with
    | none =>
      (st1, setTreeFor tb.2 o.pairId o.side (treePut tb.1 o.price [o1]))
    | some l =>
      (st1, setTreeFor tb.2 o.pairId o.side (treeSet tb.1 o.price (sortByCreatedAt (l ++ [o1]))))

/-- Result of one iteration of the `NewBook` consumer goroutine. -/
structure ProcessResult where
  matchResults : List MatchResult
  amountLeft : Int
  store : Store
  book : BookState
deriving DecidableEq, Repr

/-- The `OrderHistoryEvent` literal the `NewBook` goroutine builds for one
match result: name `TARGET_HIT`, `OrderId` the resting counterparty's id, and
metadata `{matching_order_id: o.ID}` taken from the goroutine's own `o`. -/
def targetHitEvent (o : Order) (m : MatchResult) : HistoryEvent :=
  ⟨"TARGET_HIT", m.targetOrder.id, some o.id⟩

/-- The body of the `NewBook` consumer goroutine for one dequeued order:
match, then insert the received value `o` (Go passes `o` by value, so the id
assigned inside `insertOrder` never reaches this frame), then append one
`TARGET_HIT` event per match result. -/
def processOrder (st : Store) (b : BookState) (o : Order) : ProcessResult :=
  let mr := matchOrder b o
  let sb := insertOrder st mr.2.2 o
  let st2 := mr.1.foldl (fun s m => (s.addEvent (targetHitEvent o m)).2) sb.1
  ⟨mr.1, mr.2.1, st2, sb.2⟩

/-- The removal scan of `CancellOrder`: delete the first list entry whose id
matches, or report that none does. -/
def removeFirstById : Level → Int → Option Level
  | [], _ => none
  | o :: rest, i =>
    if o.id == i then some rest
    else (removeFirstById rest i).map (o :: ·)

structure CancelResult where
  err : Option BookErr
  store : Store
  book : BookState
deriving DecidableEq, Repr

/-- `BookImpl.CancellOrder`: resolve the id through the store (propagating the
store's error as-is), locate tree, node and list entry (each miss yields
`ErrOrderNotFound`), remove the entry, append `ORDER_CANCELLED` ignoring the
append's error, drop the node when its list became empty, return success. -/
def cancellOrder (st : Store) (b : BookState) (id : Int) : CancelResult :=
  match st.getOrderByID id with
  | .error e => ⟨some e, st, b⟩
  | .ok fo =>
    match getTreeFor b fo.pairId fo.side with
    | none => ⟨some .orderNotFound, st, b⟩
    | some tr =>
      match treeFind tr fo.price with
      | none => ⟨some .orderNotFound, st, b⟩
      | some l =>
        match removeFirstById l fo.id with
        | none => ⟨some .orderNotFound, st, b⟩
        | some l2 =>
          let st1 := (st.addEvent ⟨"ORDER_CANCELLED", fo.id, none⟩).2
          let tr2 := if l2.isEmpty then treeRemove tr fo.price else treeSet tr fo.price l2
          ⟨none, st1, setTreeFor b fo.pairId fo.side tr2⟩

/-- Concatenation of the FIFOs of a run of levels, as in `GetOrders`. -/
def joinLevels (ls : List (Int × Level)) : List Order :=
  (ls.map Prod.snd).flatten

/-- `BookImpl.GetOrders`: the ask walk starts at `Iterator.End` and steps `Prev`
(descending keys), the bid walk starts at the beginning and steps `Next`
(ascending keys); each walk skips `offset` levels then concatenates the next
`size` levels' lists. -/
def getOrders (b : BookState) (pairId : String) (size offset : Nat) :
    List Order × List Order :=
  let ask :=
    match mapFind b.askTreesMap pairId with
    | none => []
    | some t => joinLevels ((t.reverse.drop offset).take size)
  let bid :=
    match mapFind b.bidTreesMap pairId with
    | none => []
    | some t => joinLevels ((t.drop offset).take size)
  (ask, bid)

/-- The opposite-side ladder of an order's pair, the tree `matchOrder` scans. -/
def oppLadder (b : BookState) (o : Order) : Tree :=
  (getTreeFor b o.pairId o.side.opposite).getD []

/-- Total amount filled across a list of match results. -/
def fillSum (ms : List MatchResult) : Int :=
  (ms.map (fun m => m.targetOrder.amount)).sum

/-! ### Non-decreasing `created_at` order within a level -/

def timesOf (l : Level) : List Int := l.map Order.createdAt

/-- The within-level invariant: resting orders in non-decreasing `created_at` order. -/
def timeSorted (l : Level) : Prop := (timesOf l).Pairwise (· ≤ ·)

def treeTimeSorted (t : Tree) : Prop := ∀ kl ∈ t, timeSorted kl.2

def mapTimeSorted (m : TreeMap) : Prop := ∀ pt ∈ m, treeTimeSorted pt.2

/-- Every level of every ladder of the book is in non-decreasing `created_at` order. -/
def bookTimeSorted (b : BookState) : Prop :=
    mapTimeSorted b.askTreesMap ∧ mapTimeSorted b.bidTreesMap

instance (l : Level) : Decidable (timeSorted l) := by
  unfold timeSorted
  infer_instance

instance (t : Tree) : Decidable (treeTimeSorted t) := by
  unfold treeTimeSorted
  infer_instance

instance (m : TreeMap) : Decidable (mapTimeSorted m) := by
  unfold mapTimeSorted
  infer_instance

instance (b : BookState) : Decidable (bookTimeSorted b) := by
  unfold bookTimeSorted
  infer_instance

/-! ### Association-list and tree lemmas -/

theorem mapFind_mapSet_self (m : TreeMap) (k : String) (t : Tree) :
    mapFind (mapSet m k t) k = some t := by
  induction m with
  | nil => simp [mapSet, mapFind]
  | cons hd tl ih =>
    by_cases h : k = hd.1
    · simp [mapSet, mapFind, h]
    · simpa [mapSet, mapFind, h] using ih

theorem treeFind_treeSet_ne (t : Tree) (p : Int) (l : Level) (q : Int) (h : q ≠ p) :
    treeFind (treeSet t p l) q = treeFind t q := by
  induction t with
  | nil => simp [treeSet]
  | cons hd tl ih =>
    by_cases hp : p = hd.1
    · subst hp
      simp [treeSet, treeFind, h]
    · by_cases hq : q = hd.1
      · simp [treeSet, treeFind, hp, hq]
      · simpa [treeSet, treeFind, hp, hq] using ih

theorem treeSet_keys (t : Tree) (p : Int) (l : Level) :
    (treeSet t p l).map Prod.fst = t.map Prod.fst := by
  induction t with
  | nil => simp [treeSet]
  | cons hd tl ih =>
    by_cases hp : p = hd.1
    · simp [treeSet, hp]
    · simpa [treeSet, hp] using ih

theorem treeFind_eq_none_of_not_mem (t : Tree) (p : Int)
    (h : p ∉ t.map Prod.fst) : treeFind t p = none := by
  induction t with
  | nil => simp [treeFind]
  | cons hd tl ih =>
    simp only [List.map_cons, List.mem_cons, not_or] at h
    simpa [treeFind, h.1] using ih h.2

theorem treeFind_treeRemove_self (t : Tree) (p : Int)
    (h : (t.map Prod.fst).Nodup) : treeFind (treeRemove t p) p = none := by
  induction t with
  | nil => simp [treeRemove, treeFind]
  | cons hd tl ih =>
    simp only [List.map_cons, List.nodup_cons] at h
    by_cases hp : p = hd.1
    · rw [show treeRemove (hd :: tl) p = tl by simp [treeRemove, hp]]
      exact treeFind_eq_none_of_not_mem _ _ (hp ▸ h.1)
    · simpa [treeRemove, treeFind, hp] using ih h.2

theorem getTreeFor_setTreeFor_self (b : BookState) (pairId : String)
    (ty : OrderType) (tr : Tree) :
    getTreeFor (setTreeFor b pairId ty tr) pairId ty = some tr := by
  cases ty <;> simp [getTreeFor, setTreeFor, mapFind_mapSet_self]

/-! ### Structural lemmas about the match scan loop -/

theorem matchLoop_nonpos (acct : Int) (left : Int) (l : Level) (h : left ≤ 0) :
    matchLoop acct left l = ([], left, l) := by
  cases l with
  | nil => simp [matchLoop]
  | cons r rest => simp [matchLoop, h]

/-- The scan of a concatenation processes the left part first and continues
into the right part with whatever amount is left over. -/
theorem matchLoop_append (acct : Int) (left : Int) (l1 l2 : Level) :
    matchLoop acct left (l1 ++ l2) =
      ((matchLoop acct left l1).1
          ++ (matchLoop acct (matchLoop acct left l1).2.1 l2).1,
        (matchLoop acct (matchLoop acct left l1).2.1 l2).2.1,
        (matchLoop acct left l1).2.2
          ++ (matchLoop acct (matchLoop acct left l1).2.1 l2).2.2) := by
  induction l1 generalizing left with
  | nil => simp [matchLoop]
  | cons r t ih =>
    by_cases h0 : left ≤ 0
    · simp [matchLoop, h0, matchLoop_nonpos acct left l2 h0]
    · by_cases hacct : r.accountId = acct
      · simp [matchLoop, h0, hacct, ih]
      · by_cases hpart : left < r.amount
        · simp [matchLoop, h0, hacct, hpart,
            matchLoop_nonpos acct 0 l2 le_rfl]
        · simp [matchLoop, h0, hacct, hpart, ih]

/-- Every recorded fill targets (the id of) an order of the scanned list. -/
theorem matchLoop_fill_ids (acct : Int) (left : Int) (l : Level) :
    ∀ m ∈ (matchLoop acct left l).1, m.targetOrder.id ∈ l.map Order.id := by
  induction l generalizing left with
  | nil => simp [matchLoop]
  | cons r rest ih =>
    intro m hm
    by_cases h0 : left ≤ 0
    · simp [matchLoop, h0] at hm
    · by_cases hacct : r.accountId = acct
      · simp only [matchLoop, if_neg h0, if_pos hacct] at hm
        exact List.mem_cons_of_mem _ (ih left m hm)
      · by_cases hpart : left < r.amount
        · simp only [matchLoop, if_neg h0, if_neg hacct, if_pos hpart,
            List.mem_singleton] at hm
          subst hm
          simp
        · simp only [matchLoop, if_neg h0, if_neg hacct, if_neg hpart,
            List.mem_cons] at hm
          rcases hm with hm | hm
          · subst hm; simp
          · exact List.mem_cons_of_mem _ (ih _ m hm)

theorem matchLoop_no_self_fill (acct : Int) (left : Int) (l : Level) :
    ∀ m ∈ (matchLoop acct left l).1, m.targetOrder.accountId ≠ acct := by
  induction l generalizing left with
  | nil => simp [matchLoop]
  | cons r rest ih =>
    intro m hm
    by_cases h0 : left ≤ 0
    · simp [matchLoop, h0] at hm
    · by_cases hacct : r.accountId = acct
      · simp only [matchLoop, if_neg h0, if_pos hacct] at hm
        exact ih left m hm
      · by_cases hpart : left < r.amount
        · simp only [matchLoop, if_neg h0, if_neg hacct, if_pos hpart,
            List.mem_singleton] at hm
          subst hm
          simpa using hacct
        · simp only [matchLoop, if_neg h0, if_neg hacct, if_neg hpart,
            List.mem_cons] at hm
          rcases hm with hm | hm
          · subst hm; simpa using hacct
          · exact ih _ m hm

/-- The scan leaves the same-account subsequence of the level untouched. -/
theorem matchLoop_same_account_kept (acct : Int) (left : Int) (l : Level) :
    (matchLoop acct left l).2.2.filter (fun r => r.accountId == acct)
      = l.filter (fun r => r.accountId == acct) := by
  induction l generalizing left with
  | nil => simp [matchLoop]
  | cons r rest ih =>
    by_cases h0 : left ≤ 0
    · simp [matchLoop, h0]
    · by_cases hacct : r.accountId = acct
      · simp [matchLoop, h0, hacct, ih]
      · by_cases hpart : left < r.amount
        · simp [matchLoop, h0, hacct, hpart]
        · simp [matchLoop, h0, hacct, hpart, ih]

/-- Skipped same-account orders are transparent to the scan: the fills are the
fills of the level with the same-account orders filtered out. -/
theorem matchLoop_skip_transparent_fills (acct : Int) (left : Int) (l : Level) :
    (matchLoop acct left l).1
      = (matchLoop acct left (l.filter (fun r => r.accountId != acct))).1 := by
  induction l generalizing left with
  | nil => simp
  | cons r rest ih =>
    by_cases h0 : left ≤ 0
    · rw [matchLoop_nonpos acct left _ h0, matchLoop_nonpos acct left _ h0]
    · by_cases hacct : r.accountId = acct
      · simp [matchLoop, h0, hacct, ih]
      · by_cases hpart : left < r.amount
        · simp [matchLoop, h0, hacct, hpart]
        · simp [matchLoop, h0, hacct, hpart, ih]

/-- Skipped same-account orders likewise do not change the residual amount. -/
theorem matchLoop_skip_transparent_left (acct : Int) (left : Int) (l : Level) :
    (matchLoop acct left l).2.1
      = (matchLoop acct left (l.filter (fun r => r.accountId != acct))).2.1 := by
  induction l generalizing left with
  | nil => simp
  | cons r rest ih =>
    by_cases h0 : left ≤ 0
    · rw [matchLoop_nonpos acct left _ h0, matchLoop_nonpos acct left _ h0]
    · by_cases hacct : r.accountId = acct
      · simp [matchLoop, h0, hacct, ih]
      · by_cases hpart : left < r.amount
        · simp [matchLoop, h0, hacct, hpart]
        · simp [matchLoop, h0, hacct, hpart, ih]

theorem timesOf_matchLoop_sublist (acct : Int) (left : Int) (l : Level) :
    List.Sublist (timesOf (matchLoop acct left l).2.2) (timesOf l) := by
  induction l generalizing left with
  | nil => simp [matchLoop]
  | cons r rest ih =>
    by_cases h0 : left ≤ 0
    · simp [matchLoop, h0]
    · by_cases hacct : r.accountId = acct
      · simpa [matchLoop, h0, hacct, timesOf] using (ih left).cons₂ r.createdAt
      · by_cases hpart : left < r.amount
        · simp [matchLoop, h0, hacct, hpart, timesOf]
        · simp only [matchLoop, if_neg h0, if_neg hacct, if_neg hpart]
          exact (ih (left - r.amount)).cons r.createdAt

theorem timeSorted_matchLoop (acct : Int) (left : Int) (l : Level)
    (h : timeSorted l) : timeSorted (matchLoop acct left l).2.2 :=
  h.sublist (timesOf_matchLoop_sublist acct left l)

theorem timesOf_insertByTime (o : Order) (l : Level) :
    ∀ a ∈ timesOf (insertByTime o l), a = o.createdAt ∨ a ∈ timesOf l := by
  induction l with
  | nil => simp [insertByTime, timesOf]
  | cons x xs ih =>
    intro a ha
    by_cases hle : o.createdAt ≤ x.createdAt
    · simp only [insertByTime, if_pos hle, timesOf, List.map_cons, List.mem_cons] at ha ⊢
      tauto
    · simp only [insertByTime, if_neg hle, timesOf, List.map_cons, List.mem_cons] at ha ⊢
      rcases ha with ha | ha
      · tauto
      · rcases ih a ha with h | h
        · tauto
        · simp only [timesOf] at h
          tauto

theorem timeSorted_insertByTime (o : Order) (l : Level) (h : timeSorted l) :
    timeSorted (insertByTime o l) := by
  induction l with
  | nil => simp [insertByTime, timeSorted, timesOf]
  | cons x xs ih =>
    simp only [timeSorted, timesOf, List.map_cons, List.pairwise_cons] at h
    by_cases hle : o.createdAt ≤ x.createdAt
    · simp only [insertByTime, if_pos hle, timeSorted, timesOf, List.map_cons,
        List.pairwise_cons]
      refine ⟨?_, h.1, h.2⟩
      intro a ha
      rcases List.mem_cons.1 ha with ha | ha
      · exact ha ▸ hle
      · exact hle.trans (h.1 a ha)
    · have hxo : x.createdAt ≤ o.createdAt := le_of_not_le hle
      simp only [insertByTime, if_neg hle, timeSorted, timesOf, List.map_cons,
        List.pairwise_cons]
      refine ⟨?_, ih h.2⟩
      intro a ha
      rcases timesOf_insertByTime o xs a ha with rfl | ha
      · exact hxo
      · exact h.1 a ha

theorem timeSorted_sortByCreatedAt (l : Level) : timeSorted (sortByCreatedAt l) := by
  induction l with
  | nil => simp [sortByCreatedAt, timeSorted, timesOf]
  | cons x xs ih => exact timeSorted_insertByTime x _ ih

theorem timesOf_removeFirstById (l : Level) (i : Int) (l2 : Level)
    (h : removeFirstById l i = some l2) : List.Sublist (timesOf l2) (timesOf l) := by
  induction l generalizing l2 with
  | nil => simp [removeFirstById] at h
  | cons x xs ih =>
    by_cases hx : x.id == i
    · simp only [removeFirstById, if_pos hx, Option.some.injEq] at h
      subst h
      simp [timesOf]
    · simp only [removeFirstById, if_neg hx, Option.map_eq_some'] at h
      rcases h with ⟨l1, hl1, rfl⟩
      simpa [timesOf] using (ih l1 hl1).cons₂ x.createdAt

/-! ### Sortedness is preserved at the tree, map and book level -/

theorem mem_mapSet (m : TreeMap) (k : String) (t : Tree) :
    ∀ x ∈ mapSet m k t, x = (k, t) ∨ x ∈ m := by
  induction m with
  | nil => simp [mapSet]
  | cons hd tl ih =>
    intro x hx
    by_cases hk : k = hd.1
    · simp only [mapSet, if_pos hk, List.mem_cons] at hx
      tauto
    · simp only [mapSet, if_neg hk, List.mem_cons] at hx
      rcases hx with hx | hx
      · simp [hx]
      · rcases ih x hx with h | h <;> simp [h]

theorem mem_treeSet (t : Tree) (p : Int) (l : Level) :
    ∀ x ∈ treeSet t p l, x = (p, l) ∨ x ∈ t := by
  induction t with
  | nil => simp [treeSet]
  | cons hd tl ih =>
    intro x hx
    by_cases hp : p = hd.1
    · simp only [treeSet, if_pos hp, List.mem_cons] at hx
      rcases hx with hx | hx
      · left; simp [hx, hp]
      · right; simp [hx]
    · simp only [treeSet, if_neg hp, List.mem_cons] at hx
      rcases hx with hx | hx
      · simp [hx]
      · rcases ih x hx with h | h <;> simp [h]

theorem mem_treePut (t : Tree) (p : Int) (l : Level) :
    ∀ x ∈ treePut t p l, x = (p, l) ∨ x ∈ t := by
  induction t with
  | nil => simp [treePut]
  | cons hd tl ih =>
    intro x hx
    by_cases hlt : p < hd.1
    · rw [show treePut (hd :: tl) p l = (p, l) :: hd :: tl by simp [treePut, hlt]] at hx
      exact List.mem_cons.1 hx
    · by_cases hp : p = hd.1
      · rw [show treePut (hd :: tl) p l = (p, l) :: tl by simp [treePut, hlt, hp]] at hx
        rcases List.mem_cons.1 hx with hx | hx
        · exact Or.inl hx
        · exact Or.inr (List.mem_cons_of_mem _ hx)
      · rw [show treePut (hd :: tl) p l = hd :: treePut tl p l by simp [treePut, hlt, hp]] at hx
        rcases List.mem_cons.1 hx with hx | hx
        · exact Or.inr (hx ▸ List.mem_cons_self _ _)
        · rcases ih x hx with h | h
          · exact Or.inl h
          · exact Or.inr (List.mem_cons_of_mem _ h)

theorem mem_treeRemove (t : Tree) (p : Int) :
    ∀ x ∈ treeRemove t p, x ∈ t := by
  induction t with
  | nil => simp [treeRemove]
  | cons hd tl ih =>
    intro x hx
    by_cases hp : p = hd.1
    · simp only [treeRemove, if_pos hp] at hx
      simp [hx]
    · simp only [treeRemove, if_neg hp, List.mem_cons] at hx
      rcases hx with hx | hx
      · simp [hx]
      · simp [ih x hx]

theorem mapFind_mem (m : TreeMap) (s : String) (t : Tree)
    (h : mapFind m s = some t) : (s, t) ∈ m := by
  induction m with
  | nil => simp [mapFind] at h
  | cons hd tl ih =>
    by_cases hs : s = hd.1
    · simp only [mapFind, if_pos hs, Option.some.injEq] at h
      subst hs
      subst h
      simp
    · simp only [mapFind, if_neg hs] at h
      exact List.mem_cons_of_mem _ (ih h)

theorem treeFind_mem (t : Tree) (p : Int) (l : Level)
    (h : treeFind t p = some l) : (p, l) ∈ t := by
  induction t with
  | nil => simp [treeFind] at h
  | cons hd tl ih =>
    by_cases hp : p = hd.1
    · simp only [treeFind, if_pos hp, Option.some.injEq] at h
      subst hp
      subst h
      simp
    · simp only [treeFind, if_neg hp] at h
      exact List.mem_cons_of_mem _ (ih h)

theorem treeTimeSorted_treeSet (t : Tree) (p : Int) (l : Level)
    (ht : treeTimeSorted t) (hl : timeSorted l) : treeTimeSorted (treeSet t p l) := by
  intro kl hkl
  rcases mem_treeSet t p l kl hkl with rfl | h
  · exact hl
  · exact ht kl h

theorem treeTimeSorted_treePut (t : Tree) (p : Int) (l : Level)
    (ht : treeTimeSorted t) (hl : timeSorted l) : treeTimeSorted (treePut t p l) := by
  intro kl hkl
  rcases mem_treePut t p l kl hkl with rfl | h
  · exact hl
  · exact ht kl h

theorem treeTimeSorted_treeRemove (t : Tree) (p : Int)
    (ht : treeTimeSorted t) : treeTimeSorted (treeRemove t p) :=
  fun kl hkl => ht kl (mem_treeRemove t p kl hkl)

theorem mapTimeSorted_mapSet (m : TreeMap) (k : String) (t : Tree)
    (hm : mapTimeSorted m) (ht : treeTimeSorted t) : mapTimeSorted (mapSet m k t) := by
  intro pt hpt
  rcases mem_mapSet m k t pt hpt with rfl | h
  · exact ht
  · exact hm pt h

theorem bookTimeSorted_setTreeFor (b : BookState) (pairId : String)
    (ty : OrderType) (tr : Tree) (hb : bookTimeSorted b) (ht : treeTimeSorted tr) :
    bookTimeSorted (setTreeFor b pairId ty tr) := by
  cases ty
  · exact ⟨mapTimeSorted_mapSet _ _ _ hb.1 ht, hb.2⟩
  · exact ⟨hb.1, mapTimeSorted_mapSet _ _ _ hb.2 ht⟩

theorem getTreeFor_timeSorted (b : BookState) (pairId : String) (ty : OrderType)
    (tr : Tree) (hb : bookTimeSorted b) (h : getTreeFor b pairId ty = some tr) :
    treeTimeSorted tr := by
  cases ty
  · exact hb.1 (pairId, tr) (mapFind_mem _ _ _ h)
  · exact hb.2 (pairId, tr) (mapFind_mem _ _ _ h)

theorem treeTimeSorted_nil : treeTimeSorted [] := by
  intro kl h
  simp at h

theorem timeSorted_singleton (o : Order) : timeSorted [o] := by
  simp [timeSorted, timesOf]

theorem bookTimeSorted_matchOrder (b : BookState) (o : Order)
    (hb : bookTimeSorted b) : bookTimeSorted (matchOrder b o).2.2 := by
  unfold matchOrder
  cases hg : getTreeFor b o.pairId o.side.opposite with
  | none =>
    simp only [hg, treeFind]
    exact bookTimeSorted_setTreeFor _ _ _ _ hb treeTimeSorted_nil
  | some tr =>
    have htr := getTreeFor_timeSorted b _ _ tr hb hg
    cases hf : treeFind tr o.price with
    | none => simpa [hg, hf] using hb
    | some l =>
      simp only [hg, hf]
      have hl : timeSorted l := htr (o.price, l) (treeFind_mem _ _ _ hf)
      exact bookTimeSorted_setTreeFor _ _ _ _ hb
        (treeTimeSorted_treeSet _ _ _ htr (timeSorted_matchLoop _ _ _ hl))

theorem bookTimeSorted_insertOrder (st : Store) (b : BookState) (o : Order)
    (hb : bookTimeSorted b) : bookTimeSorted (insertOrder st b o).2 := by
  unfold insertOrder
  cases hc : st.createOrder o.pairId o.price o.amount o.accountId o.side with
  | none => simpa [hc] using hb
  | some pr =>
    cases hg : getTreeFor b o.pairId o.side with
    | none =>
      simp only [hg, treeFind]
      exact bookTimeSorted_setTreeFor _ _ _ _
        (bookTimeSorted_setTreeFor _ _ _ _ hb treeTimeSorted_nil)
        (treeTimeSorted_treePut _ _ _ treeTimeSorted_nil (timeSorted_singleton _))
    | some tr =>
      have htr := getTreeFor_timeSorted b _ _ tr hb hg
      cases hf : treeFind tr o.price with
      | none =>
        simp only [hg, hf]
        exact bookTimeSorted_setTreeFor _ _ _ _ hb
          (treeTimeSorted_treePut _ _ _ htr (timeSorted_singleton _))
      | some l =>
        simp only [hg, hf]
        exact bookTimeSorted_setTreeFor _ _ _ _ hb
          (treeTimeSorted_treeSet _ _ _ htr (timeSorted_sortByCreatedAt _))

theorem bookTimeSorted_cancellOrder (st : Store) (b : BookState) (i : Int)
    (hb : bookTimeSorted b) : bookTimeSorted (cancellOrder st b i).book := by
  unfold cancellOrder
  cases hq : st.getOrderByID i with
  | error e => simpa [hq] using hb
  | ok fo =>
    cases hg : getTreeFor b fo.pairId fo.side with
    | none => simpa [hq, hg] using hb
    | some tr =>
      have htr := getTreeFor_timeSorted b _ _ tr hb hg
      cases hf : treeFind tr fo.price with
      | none => simpa [hq, hg, hf] using hb
      | some l =>
        cases hr : removeFirstById l fo.id with
        | none => simpa [hq, hg, hf, hr] using hb
        | some l2 =>
          simp only [hq, hg, hf, hr]
          have hl : timeSorted l := htr (fo.price, l) (treeFind_mem _ _ _ hf)
          have hl2 : timeSorted l2 := hl.sublist (timesOf_removeFirstById l fo.id l2 hr)
          by_cases he : l2.isEmpty
          · simp only [he, if_true]
            exact bookTimeSorted_setTreeFor _ _ _ _ hb (treeTimeSorted_treeRemove _ _ htr)
          · simp only [he, if_false, Bool.false_eq_true]
            exact bookTimeSorted_setTreeFor _ _ _ _ hb (treeTimeSorted_treeSet _ _ _ htr hl2)

/-- If the head of the scanned level belongs to another account and some fill
beyond it is recorded, then the head was fully filled and its fill precedes
every fill with the given id (price-time priority within a level). -/
theorem matchLoop_priority (acct left : Int) (l1 l2 l3 : Level) (a bo : Order)
    (ha : a.accountId ≠ acct)
    (hids : ∀ x ∈ l1 ++ a :: l2, x.id ≠ bo.id)
    (hb : ∃ m ∈ (matchLoop acct left (l1 ++ a :: (l2 ++ bo :: l3))).1,
      m.targetOrder.id = bo.id) :
    ∃ ms1 ms2,
      (matchLoop acct left (l1 ++ a :: (l2 ++ bo :: l3))).1
          = ms1 ++ (⟨a, "full"⟩ : MatchResult) :: ms2
        ∧ ∀ m ∈ ms1, m.targetOrder.id ≠ bo.id := by
  obtain ⟨m, hm, hmid⟩ := hb
  have hfills : (matchLoop acct left (l1 ++ a :: (l2 ++ bo :: l3))).1
      = (matchLoop acct left l1).1
        ++ (matchLoop acct (matchLoop acct left l1).2.1 (a :: (l2 ++ bo :: l3))).1 := by
    rw [matchLoop_append]
  have hnotl1 : ∀ m' ∈ (matchLoop acct left l1).1, m'.targetOrder.id ≠ bo.id := by
    intro m' hm' heq
    have hin := matchLoop_fill_ids acct left l1 m' hm'
    rw [heq] at hin
    obtain ⟨x, hx, hxid⟩ := List.mem_map.1 hin
    exact hids x (List.mem_append_left _ hx) hxid
  have haid : a.id ≠ bo.id :=
    hids a (List.mem_append_right _ (List.mem_cons_self _ _))
  rw [hfills] at hm
  rcases List.mem_append.1 hm with hm1 | hm2
  · exact absurd hmid (hnotl1 m hm1)
  · by_cases h0 : (matchLoop acct left l1).2.1 ≤ 0
    · rw [matchLoop_nonpos acct _ _ h0] at hm2
      simp at hm2
    · by_cases hpart : (matchLoop acct left l1).2.1 < a.amount
      · rw [show (matchLoop acct (matchLoop acct left l1).2.1 (a :: (l2 ++ bo :: l3))).1
            = [⟨{ a with amount := (matchLoop acct left l1).2.1 }, "partial"⟩] by
          simp [matchLoop, h0, ha, hpart]] at hm2
        rw [List.mem_singleton] at hm2
        subst hm2
        exact absurd hmid haid
      · refine ⟨(matchLoop acct left l1).1,
          (matchLoop acct ((matchLoop acct left l1).2.1 - a.amount) (l2 ++ bo :: l3)).1,
          ?_, hnotl1⟩
        rw [hfills]
        congr 1
        simp [matchLoop, h0, ha, hpart]

/-! ### Claim theorems -/

/-- C4: every book operation (`insertOrder`, `matchOrder`, `CancellOrder`)
keeps every price level of every ladder in non-decreasing `created_at` order;
and within a level the scan respects FIFO priority: if an earlier-listed
resting order `a` of another account is followed by `bo` and `bo` receives a
fill, then `a` was fully filled (hence removed) and its fill is recorded
strictly before any fill of `bo`. -/
theorem c4_price_time_priority :
    (∀ st b o, bookTimeSorted b → bookTimeSorted (insertOrder st b o).2)
    ∧ (∀ b o, bookTimeSorted b → bookTimeSorted (matchOrder b o).2.2)
    ∧ (∀ st b i, bookTimeSorted b → bookTimeSorted (cancellOrder st b i).book)
    ∧ (∀ (acct left : Int) (l1 l2 l3 : Level) (a bo : Order),
        a.accountId ≠ acct →
        (∀ x ∈ l1 ++ a :: l2, x.id ≠ bo.id) →
        (∃ m ∈ (matchLoop acct left (l1 ++ a :: (l2 ++ bo :: l3))).1,
          m.targetOrder.id = bo.id) →
        ∃ ms1 ms2,
          (matchLoop acct left (l1 ++ a :: (l2 ++ bo :: l3))).1
              = ms1 ++ (⟨a, "full"⟩ : MatchResult) :: ms2
            ∧ ∀ m ∈ ms1, m.targetOrder.id ≠ bo.id) :=
  ⟨bookTimeSorted_insertOrder, bookTimeSorted_matchOrder, bookTimeSorted_cancellOrder,
    matchLoop_priority⟩

theorem c4_price_time_priority_witness :
    bookTimeSorted (matchOrder ⟨[], [("X", [(100, [⟨100, 2, "X", 21, 1, 1, .BID⟩])])]⟩
        ⟨100, 1, "X", 0, 2, 2, .ASK⟩).2.2
    ∧ ∃ ms1 ms2,
        (matchLoop 5 9 ([⟨100, 2, "X", 1, 7, 1, .BID⟩]
            ++ (⟨100, 3, "X", 2, 8, 2, .BID⟩ : Order)
              :: ([] ++ (⟨100, 4, "X", 3, 9, 3, .BID⟩ : Order) :: []))).1
            = ms1 ++ (⟨⟨100, 3, "X", 2, 8, 2, .BID⟩, "full"⟩ : MatchResult) :: ms2
          ∧ ∀ m ∈ ms1, m.targetOrder.id ≠ (⟨100, 4, "X", 3, 9, 3, .BID⟩ : Order).id :=
  ⟨c4_price_time_priority.2.1 _ _ (by decide),
    c4_price_time_priority.2.2.2 5 9 [⟨100, 2, "X", 1, 7, 1, .BID⟩] [] []
      ⟨100, 3, "X", 2, 8, 2, .BID⟩ ⟨100, 4, "X", 3, 9, 3, .BID⟩
      (by decide) (by decide) (by decide)⟩

/-- C10: when the `ORDER_CANCELLED` append fails, `CancellOrder` behaves
exactly as when it succeeds — same returned error (nil on the success path)
and same resulting ladders — while the store's event log is left untouched:
the append error is discarded and never surfaced to the caller. -/
theorem c10_append_error_swallowed (st : Store) (b : BookState) (i : Int) :
    (cancellOrder { st with appendOk := false } b i).err
        = (cancellOrder { st with appendOk := true } b i).err
    ∧ (cancellOrder { st with appendOk := false } b i).book
        = (cancellOrder { st with appendOk := true } b i).book
    ∧ (cancellOrder { st with appendOk := false } b i).store.events = st.events := by
  unfold cancellOrder Store.getOrderByID
  cases hq : st.rows.find? (fun r => r.id == i) with
  | none => simp [hq]
  | some fo =>
    simp only [hq]
    cases hg : getTreeFor b fo.pairId fo.side with
    | none => simp [hg]
    | some tr =>
      cases hf : treeFind tr fo.price with
      | none => simp [hg, hf]
      | some l =>
        cases hr : removeFirstById l fo.id with
        | none => simp [hg, hf, hr]
        | some l2 => simp [hg, hf, hr, Store.addEvent]

/-- C1, counterexample: with a resting BID level at price 100 and an incoming
ASK limit 99, the level crosses (100 ≥ 99) and the incoming amount is positive,
yet `matchOrder` records no fill and leaves the book unchanged — matching never
examines levels other than the one at exactly the incoming price, refuting the
claim that every crossing level is consumed in best-first order. -/
theorem c1_counterexample :
    let resting : Order := ⟨100, 5, "X", 10, 1, 1, .BID⟩
    let b : BookState := ⟨[], [("X", [(100, [resting])])]⟩
    let incoming : Order := ⟨99, 5, "X", 0, 2, 2, .ASK⟩
    incoming.price ≤ resting.price ∧ 0 < incoming.amount ∧
    (matchOrder b incoming).1 = [] ∧ (matchOrder b incoming).2.2 = b := by
  decide

/-- C2, failing input: an incoming ASK that is fully matched (remaining
amount 0) is nevertheless inserted into the ask ladder, and with its original
amount 5 — the `NewBook` loop calls `insertOrder(o)` unconditionally with the
unmodified order, contradicting the claim that nothing rests when the
remaining amount is zero. -/
theorem c2_full_match_still_rests :
    let resting : Order := ⟨100, 5, "X", 10, 1, 1, .BID⟩
    let st : Store := ⟨42, 20, [resting], [], true, true⟩
    let b : BookState := ⟨[], [("X", [(100, [resting])])]⟩
    let incoming : Order := ⟨100, 5, "X", 0, 2, 2, .ASK⟩
    (processOrder st b incoming).amountLeft = 0 ∧
    mapFind (processOrder st b incoming).book.askTreesMap "X"
      = some [(100, [⟨100, 5, "X", 42, 2, 2, .ASK⟩])] := by
  decide

/-- C3, failing input: when the opposite ladder has no level at exactly the
incoming price, `matchOrder` returns through the early-exit path with the named
result `amountLeft` still at its zero value, so recorded fills (0) plus the
returned residual (0) differ from the incoming order's original amount (5). -/
theorem c3_conservation_violated :
    let b : BookState := ⟨[], []⟩
    let incoming : Order := ⟨100, 5, "X", 0, 2, 2, .ASK⟩
    (matchOrder b incoming).1 = [] ∧ (matchOrder b incoming).2.1 = 0 ∧
    fillSum (matchOrder b incoming).1 + (matchOrder b incoming).2.1 ≠ incoming.amount := by
  decide

/-- C5: the match scan never records a fill against an order of the incoming
account; the same-account subsequence of the level is left exactly as it was;
and skipped orders are transparent — the fills and the residual amount are
those of the level with the incoming account's orders filtered out, so later
arrivals at the level are still matched. -/
theorem c5_self_trade_skip (acct : Int) (left : Int) (l : Level) :
    (∀ m ∈ (matchLoop acct left l).1, m.targetOrder.accountId ≠ acct)
    ∧ (matchLoop acct left l).2.2.filter (fun r => r.accountId == acct)
        = l.filter (fun r => r.accountId == acct)
    ∧ (matchLoop acct left l).1
        = (matchLoop acct left (l.filter (fun r => r.accountId != acct))).1
    ∧ (matchLoop acct left l).2.1
        = (matchLoop acct left (l.filter (fun r => r.accountId != acct))).2.1 :=
  ⟨matchLoop_no_self_fill acct left l, matchLoop_same_account_kept acct left l,
    matchLoop_skip_transparent_fills acct left l, matchLoop_skip_transparent_left acct left l⟩

theorem c5_self_trade_skip_witness :
    (matchLoop 2 5 [⟨100, 3, "X", 11, 2, 1, .BID⟩, ⟨100, 5, "X", 10, 1, 2, .BID⟩]).1
        = (matchLoop 2 5
            ([⟨100, 3, "X", 11, 2, 1, .BID⟩, ⟨100, 5, "X", 10, 1, 2, .BID⟩].filter
              (fun r => r.accountId != 2))).1
    ∧ (matchLoop 2 5 [⟨100, 3, "X", 11, 2, 1, .BID⟩, ⟨100, 5, "X", 10, 1, 2, .BID⟩]).2.2.filter
          (fun r => r.accountId == 2)
        = [⟨100, 3, "X", 11, 2, 1, .BID⟩, ⟨100, 5, "X", 10, 1, 2, .BID⟩].filter
            (fun r => r.accountId == 2)
    ∧ (⟨⟨100, 5, "X", 10, 1, 2, .BID⟩, "full"⟩ : MatchResult).targetOrder.accountId ≠ 2 :=
  ⟨(c5_self_trade_skip 2 5 _).2.2.1,
    (c5_self_trade_skip 2 5 _).2.1,
    (c5_self_trade_skip 2 5
        [⟨100, 3, "X", 11, 2, 1, .BID⟩, ⟨100, 5, "X", 10, 1, 2, .BID⟩]).1
      ⟨⟨100, 5, "X", 10, 1, 2, .BID⟩, "full"⟩ (by decide)⟩

/-- C6, failing input: the engine does call `create_order` first — the store
row gets id 55 and the `ORDER_CREATED` row precedes the single per-fill
`TARGET_HIT` row — but both halves of the event property fail. The event value
the goroutine builds for the fill names the counterparty (`OrderId` 7) with
metadata `matching_order_id = 9`, the id carried by the submitted order value,
not the store-assigned 55 (the store id is written to `insertOrder`'s by-value
copy and never reaches the goroutine's `o`); and the repository then persists
the row with `order_id` NULL and `metadata` NULL anyway, so the stored
`TARGET_HIT` is attached to no order and carries no `matching_order_id`. -/
theorem c6_target_hit_event_lost :
    let resting : Order := ⟨100, 5, "Y", 7, 3, 1, .BID⟩
    let st : Store := ⟨55, 30, [resting], [], true, true⟩
    let b : BookState := ⟨[], [("Y", [(100, [resting])])]⟩
    let incoming : Order := ⟨100, 5, "Y", 9, 4, 2, .ASK⟩
    (processOrder st b incoming).store.rows
      = [resting, ⟨100, 5, "Y", 55, 4, 30, .ASK⟩] ∧
    (processOrder st b incoming).matchResults = [⟨resting, "full"⟩] ∧
    targetHitEvent incoming ⟨resting, "full"⟩ = ⟨"TARGET_HIT", 7, some 9⟩ ∧
    incoming.id ≠ (55 : Int) ∧
    (processOrder st b incoming).store.events
      = [⟨"ORDER_CREATED", none, none⟩, ⟨"TARGET_HIT", none, none⟩] ∧
    (none : Option Int) ≠ some resting.id := by
  decide

/-- C7, counterexample: cancelling an id the store does not know returns the
repository's own lookup error, not `ErrOrderNotFound`, refuting the claim that
an unknown id fails with `OrderNotFound`. -/
theorem c7_counterexample :
    let st : Store := ⟨42, 20, [], [], true, true⟩
    let b : BookState := ⟨[], []⟩
    (cancellOrder st b 7).err = some .storeErr ∧
    BookErr.storeErr ≠ BookErr.orderNotFound := by
  decide

/-- C8, counterexample: with ask levels at prices 1 < 2 and bid levels at
prices 1 < 2, a snapshot of one level returns the ask at price 2 (the worst
ask) and the bid at price 1 (the worst bid), refuting the claim that the ask
walk is lowest-upward and the bid walk highest-downward. -/
theorem c8_counterexample :
    let a1 : Order := ⟨1, 1, "X", 1, 1, 1, .ASK⟩
    let a2 : Order := ⟨2, 1, "X", 2, 1, 1, .ASK⟩
    let d1 : Order := ⟨1, 1, "X", 3, 1, 1, .BID⟩
    let d2 : Order := ⟨2, 1, "X", 4, 1, 1, .BID⟩
    let b : BookState := ⟨[("X", [(1, [a1]), (2, [a2])])], [("X", [(1, [d1]), (2, [d2])])]⟩
    a1.price < a2.price ∧ d1.price < d2.price ∧
    getOrders b "X" 1 0 = ([a2], [d1]) := by
  decide

/-- C9, counterexample: matching fully consumes the only order at the bid
level 100, yet the level's key stays in the bid tree with an empty order list —
`matchOrder` never calls `tree.Remove`, refuting the claim that no ladder
contains an empty price level after matching. -/
theorem c9_counterexample :
    let resting : Order := ⟨100, 4, "X", 12, 1, 1, .BID⟩
    let b : BookState := ⟨[], [("X", [(100, [resting])])]⟩
    let incoming : Order := ⟨100, 4, "X", 0, 2, 2, .ASK⟩
    (matchOrder b incoming).1 = [⟨resting, "full"⟩] ∧
    mapFind (matchOrder b incoming).2.2.bidTreesMap "X" = some [(100, [])] := by
  decide

/-- C1, amended: matching touches only the opposite-side price level at
exactly the incoming order's limit price. Every other level of the opposite
ladder — including strictly better-priced crossing levels — is left exactly as
it was, and when no level sits at exactly the incoming price no fill is
recorded at all. -/
theorem c1_exact_price_only (b : BookState) (o : Order) :
    (∀ p, p ≠ o.price →
      treeFind (oppLadder (matchOrder b o).2.2 o) p = treeFind (oppLadder b o) p)
    ∧ (treeFind (oppLadder b o) o.price = none → (matchOrder b o).1 = []) := by
  unfold matchOrder oppLadder
  cases hg : getTreeFor b o.pairId o.side.opposite with
  | none =>
    simp only [hg, treeFind]
    refine ⟨?_, ?_⟩
    · intro p hp
      rw [getTreeFor_setTreeFor_self]
      simp [treeFind]
    · simp
  | some tr =>
    cases hf : treeFind tr o.price with
    | none =>
      simp [hg, hf]
    | some l =>
      simp only [hg, hf]
      constructor
      · intro p hp
        rw [getTreeFor_setTreeFor_self]
        simp only [Option.getD_some]
        exact treeFind_treeSet_ne tr o.price _ p hp
      · intro h
        simp [hf] at h

theorem c1_exact_price_only_witness :
    treeFind (oppLadder (matchOrder ⟨[], [("X", [(100, [⟨100, 5, "X", 10, 1, 1, .BID⟩])])]⟩
        ⟨99, 7, "X", 0, 2, 2, .ASK⟩).2.2 ⟨99, 7, "X", 0, 2, 2, .ASK⟩) 100
      = treeFind (oppLadder ⟨[], [("X", [(100, [⟨100, 5, "X", 10, 1, 1, .BID⟩])])]⟩
          ⟨99, 7, "X", 0, 2, 2, .ASK⟩) 100
    ∧ (matchOrder ⟨[], [("X", [(100, [⟨100, 5, "X", 10, 1, 1, .BID⟩])])]⟩
        ⟨99, 7, "X", 0, 2, 2, .ASK⟩).1 = [] :=
  ⟨(c1_exact_price_only ⟨[], [("X", [(100, [⟨100, 5, "X", 10, 1, 1, .BID⟩])])]⟩
      ⟨99, 7, "X", 0, 2, 2, .ASK⟩).1 100 (by decide),
    (c1_exact_price_only ⟨[], [("X", [(100, [⟨100, 5, "X", 10, 1, 1, .BID⟩])])]⟩
      ⟨99, 7, "X", 0, 2, 2, .ASK⟩).2 (by decide)⟩

/-- C7, amended: cancellation by id removes the order from its level, deletes
the level when it becomes empty, appends `ORDER_CANCELLED`, and returns
success; when the store lookup fails (the id is unknown to the store) the
store's own error is returned unchanged — not `OrderNotFound` — with no
mutation; when the store knows the order but it is no longer resting in the
ladder (already terminal) the call returns `OrderNotFound` synchronously and
mutates nothing, so a terminal order is never double-processed. -/
theorem c7_cancellation_behavior :
    (∀ (st : Store) (b : BookState) (i : Int) (e : BookErr),
        st.getOrderByID i = .error e → cancellOrder st b i = ⟨some e, st, b⟩)
    ∧ (∀ (st : Store) (b : BookState) (i : Int) (fo : Order),
        st.getOrderByID i = .ok fo →
        (∀ tr l, getTreeFor b fo.pairId fo.side = some tr →
          treeFind tr fo.price = some l → removeFirstById l fo.id = none) →
        cancellOrder st b i = ⟨some .orderNotFound, st, b⟩)
    ∧ (∀ (st : Store) (b : BookState) (i : Int) (fo : Order) (tr : Tree) (l l2 : Level),
        st.getOrderByID i = .ok fo →
        getTreeFor b fo.pairId fo.side = some tr →
        treeFind tr fo.price = some l →
        removeFirstById l fo.id = some l2 →
        cancellOrder st b i =
          ⟨none, (st.addEvent ⟨"ORDER_CANCELLED", fo.id, none⟩).2,
            setTreeFor b fo.pairId fo.side
              (if l2.isEmpty then treeRemove tr fo.price else treeSet tr fo.price l2)⟩) := by
  refine ⟨?_, ?_, ?_⟩
  · intro st b i e hq
    simp [cancellOrder, hq]
  · intro st b i fo hq hmiss
    cases hg : getTreeFor b fo.pairId fo.side with
    | none => simp [cancellOrder, hq, hg]
    | some tr =>
      cases hf : treeFind tr fo.price with
      | none => simp [cancellOrder, hq, hg, hf]
      | some l => simp [cancellOrder, hq, hg, hf, hmiss tr l hg hf]
  · intro st b i fo tr l l2 hq hg hf hr
    simp [cancellOrder, hq, hg, hf, hr]

theorem c7_cancellation_behavior_witness :
    cancellOrder ⟨42, 20, [], [], true, true⟩ ⟨[], []⟩ 7
        = ⟨some .storeErr, ⟨42, 20, [], [], true, true⟩, ⟨[], []⟩⟩
    ∧ cancellOrder ⟨42, 20, [⟨100, 5, "X", 3, 1, 1, .BID⟩], [], true, true⟩ ⟨[], []⟩ 3
        = ⟨some .orderNotFound, ⟨42, 20, [⟨100, 5, "X", 3, 1, 1, .BID⟩], [], true, true⟩,
            ⟨[], []⟩⟩
    ∧ cancellOrder ⟨42, 20, [⟨100, 5, "X", 3, 1, 1, .BID⟩], [], true, true⟩
          ⟨[], [("X", [(100, [⟨100, 5, "X", 3, 1, 1, .BID⟩])])]⟩ 3
        = ⟨none,
            ((⟨42, 20, [⟨100, 5, "X", 3, 1, 1, .BID⟩], [], true, true⟩ : Store).addEvent
              ⟨"ORDER_CANCELLED", 3, none⟩).2,
            setTreeFor ⟨[], [("X", [(100, [⟨100, 5, "X", 3, 1, 1, .BID⟩])])]⟩ "X" .BID
              (if ([] : Level).isEmpty then treeRemove [(100, [⟨100, 5, "X", 3, 1, 1, .BID⟩])] 100
                else treeSet [(100, [⟨100, 5, "X", 3, 1, 1, .BID⟩])] 100 [])⟩ :=
  ⟨c7_cancellation_behavior.1 _ _ 7 .storeErr (by rfl),
    c7_cancellation_behavior.2.1 _ _ 3 ⟨100, 5, "X", 3, 1, 1, .BID⟩ (by rfl)
      (fun tr l htr _ => Option.noConfusion htr),
    c7_cancellation_behavior.2.2 _ _ 3 ⟨100, 5, "X", 3, 1, 1, .BID⟩
      [(100, [⟨100, 5, "X", 3, 1, 1, .BID⟩])] [⟨100, 5, "X", 3, 1, 1, .BID⟩] []
      (by rfl) (by decide) (by decide) (by decide)⟩

/-- C8, amended: for every pair and non-negative size and offset the snapshot
skips `offset` levels and concatenates the FIFOs of the next `size` levels, but
the ask walk runs from the highest price downward and the bid walk from the
lowest price upward, so with ascending tree keys both returned sequences are
ordered worst-first (ask level prices strictly decreasing, bid level prices
strictly increasing), not best-first. -/
theorem c8_worst_first_snapshot (b : BookState) (pairId : String)
    (size offset : Nat) (t u : Tree)
    (hat : mapFind b.askTreesMap pairId = some t)
    (hbt : mapFind b.bidTreesMap pairId = some u)
    (hka : (t.map Prod.fst).Pairwise (· < ·))
    (hkb : (u.map Prod.fst).Pairwise (· < ·)) :
    (getOrders b pairId size offset).1 = joinLevels ((t.reverse.drop offset).take size)
    ∧ (getOrders b pairId size offset).2 = joinLevels ((u.drop offset).take size)
    ∧ (((t.reverse.drop offset).take size).map Prod.fst).Pairwise (· > ·)
    ∧ (((u.drop offset).take size).map Prod.fst).Pairwise (· < ·) := by
  refine ⟨by simp [getOrders, hat], by simp [getOrders, hbt], ?_, ?_⟩
  · rw [List.map_take, List.map_drop, List.map_reverse]
    have hrev : ((t.map Prod.fst).reverse).Pairwise (· > ·) :=
      (List.pairwise_reverse).2 hka
    exact hrev.sublist ((List.take_sublist _ _).trans (List.drop_sublist _ _))
  · rw [List.map_take, List.map_drop]
    exact hkb.sublist ((List.take_sublist _ _).trans (List.drop_sublist _ _))

theorem c8_worst_first_snapshot_witness :
    (getOrders ⟨[("X", [(1, [⟨1, 1, "X", 1, 1, 1, .ASK⟩]), (2, [⟨2, 1, "X", 2, 1, 1, .ASK⟩])])],
          [("X", [(1, [⟨1, 1, "X", 3, 1, 1, .BID⟩]), (2, [⟨2, 1, "X", 4, 1, 1, .BID⟩])])]⟩
        "X" 2 0).1
      = joinLevels ((([(1, [⟨1, 1, "X", 1, 1, 1, .ASK⟩]),
          (2, [⟨2, 1, "X", 2, 1, 1, .ASK⟩])] : Tree).reverse.drop 0).take 2)
    ∧ ((((([(1, [⟨1, 1, "X", 1, 1, 1, .ASK⟩]), (2, [⟨2, 1, "X", 2, 1, 1, .ASK⟩])] : Tree)
        ).reverse.drop 0).take 2).map Prod.fst).Pairwise (· > ·) := by
  have h := c8_worst_first_snapshot
    ⟨[("X", [(1, [⟨1, 1, "X", 1, 1, 1, .ASK⟩]), (2, [⟨2, 1, "X", 2, 1, 1, .ASK⟩])])],
      [("X", [(1, [⟨1, 1, "X", 3, 1, 1, .BID⟩]), (2, [⟨2, 1, "X", 4, 1, 1, .BID⟩])])]⟩
    "X" 2 0
    [(1, [⟨1, 1, "X", 1, 1, 1, .ASK⟩]), (2, [⟨2, 1, "X", 2, 1, 1, .ASK⟩])]
    [(1, [⟨1, 1, "X", 3, 1, 1, .BID⟩]), (2, [⟨2, 1, "X", 4, 1, 1, .BID⟩])]
    (by decide) (by decide) (by decide) (by decide)
  exact ⟨h.1, h.2.2.1⟩

/-- C9, amended: cancellation does delete a level whose last order it removed,
but matching never removes a price level from the opposite ladder — the level
key set is unchanged by `matchOrder`, so a level fully consumed by matching
stays in the ordered map with an empty order list. -/
theorem c9_empty_levels :
    (∀ b o, (oppLadder (matchOrder b o).2.2 o).map Prod.fst
        = (oppLadder b o).map Prod.fst)
    ∧ (∀ (st : Store) (b : BookState) (i : Int) (fo : Order) (tr : Tree) (l : Level),
        st.getOrderByID i = .ok fo →
        getTreeFor b fo.pairId fo.side = some tr →
        treeFind tr fo.price = some l →
        removeFirstById l fo.id = some [] →
        (tr.map Prod.fst).Nodup →
        treeFind ((getTreeFor (cancellOrder st b i).book fo.pairId fo.side).getD [])
          fo.price = none) := by
  constructor
  · intro b o
    unfold matchOrder oppLadder
    cases hg : getTreeFor b o.pairId o.side.opposite with
    | none =>
      simp only [hg, treeFind]
      rw [getTreeFor_setTreeFor_self]
      rfl
    | some tr =>
      cases hf : treeFind tr o.price with
      | none => simp [hg, hf]
      | some l =>
        simp only [hg, hf]
        rw [getTreeFor_setTreeFor_self]
        simp [treeSet_keys]
  · intro st b i fo tr l hq hg hf hr hnd
    simp only [cancellOrder, hq, hg, hf, hr, List.isEmpty_nil, if_true]
    rw [getTreeFor_setTreeFor_self]
    simpa using treeFind_treeRemove_self tr fo.price hnd

theorem c9_empty_levels_witness :
    (oppLadder (matchOrder ⟨[], [("Z", [(100, [⟨100, 4, "Z", 12, 1, 1, .BID⟩])])]⟩
          ⟨100, 4, "Z", 0, 2, 2, .ASK⟩).2.2 ⟨100, 4, "Z", 0, 2, 2, .ASK⟩).map Prod.fst
      = (oppLadder ⟨[], [("Z", [(100, [⟨100, 4, "Z", 12, 1, 1, .BID⟩])])]⟩
          ⟨100, 4, "Z", 0, 2, 2, .ASK⟩).map Prod.fst
    ∧ treeFind ((getTreeFor (cancellOrder ⟨42, 20, [⟨100, 5, "Z", 3, 1, 1, .BID⟩], [], true, true⟩
          ⟨[], [("Z", [(100, [⟨100, 5, "Z", 3, 1, 1, .BID⟩])])]⟩ 3).book "Z" .BID).getD [])
        100 = none :=
  ⟨c9_empty_levels.1 ⟨[], [("Z", [(100, [⟨100, 4, "Z", 12, 1, 1, .BID⟩])])]⟩
      ⟨100, 4, "Z", 0, 2, 2, .ASK⟩,
    c9_empty_levels.2 ⟨42, 20, [⟨100, 5, "Z", 3, 1, 1, .BID⟩], [], true, true⟩
      ⟨[], [("Z", [(100, [⟨100, 5, "Z", 3, 1, 1, .BID⟩])])]⟩ 3
      ⟨100, 5, "Z", 3, 1, 1, .BID⟩ [(100, [⟨100, 5, "Z", 3, 1, 1, .BID⟩])]
      [⟨100, 5, "Z", 3, 1, 1, .BID⟩]
      (by rfl) (by decide) (by decide) (by decide) (by decide)⟩

end OrderBook
